import Mathlib

/-!
Verification of the versioned document store of `Novel_Buddies2`
(`src-tauri/src/file_ops.rs` and `src-tauri/src/git_ops.rs`).

The Rust code is a thin layer over `std::fs`, `walkdir` and `git2`
(libgit2).  We shallowly embed it as explicit state passing over a
structural filesystem model and a structural repository model:

* a path is its list of components (the source addresses everything by
  path strings; component lists model `Path` join / `parent` exactly);
* the filesystem is a finite association list `path -> content` for
  regular files plus a list of existing directories; an extra `denied`
  list models paths the OS cannot stat (permission failure), which is
  the only environmental failure the claims under test mention.
  Transient races, disk-full and mid-write crashes are environmental
  nondeterminism outside a structural model and are not modelled;
* the repository state is the object database (a map from object id to
  commit, each commit holding its tree as a flat `relative path -> blob
  content` map), the head reference, the on-disk index, and an id
  allocator.  Real git ids are content hashes, injective across the
  distinct contents produced here (distinct parents / messages /
  timestamps); the allocator models that injectivity.  The `.git`
  metadata directory never appears among the modelled working-tree
  files, mirroring git's exclusion of it from `add_all`.  Ignore rules
  (`.gitignore` files in the working tree, `.git/info/exclude`, the
  user's `core.excludesfile`) are carried in the repository state as
  the set of repository-relative paths they match — pattern syntax is
  abstracted into the matched-path set, which can be arbitrary, just as
  the rules themselves can match an arbitrary path set.
  `add_all(["*"], IndexAddOption::DEFAULT)` consults these rules:
  libgit2's `git_index_add_all` applies the index-to-workdir diff
  computed without `INCLUDE_IGNORED`, so an untracked file matched by
  the rules yields no delta and is skipped, a tracked file is updated
  even when matched, every other working-tree file is added, and a
  `DELETED` delta removes its index entry.

Fallible Rust functions return `Result<_, String>`; their error strings
are modelled as an inductive with one constructor per `format!` site,
and `gitErrKind` maps each site to the specification's error kinds.
-/

set_option maxHeartbeats 1000000

deriving instance DecidableEq for Except

namespace NB

/-- A filesystem path, as its list of components.  `[]` is the root of the
host tree (always present as a directory).  `Path::join` is `++`,
`Path::parent` is `dropLast` (with `none` at the empty path). -/
abbrev FPath := List String

/-- First-match association-list lookup (map read). -/
def alookup {α β : Type} [DecidableEq α] : List (α × β) → α → Option β
  | [], _ => none
  | e :: rest, k => if e.1 = k then some e.2 else alookup rest k

/-- Drop every binding of a key from an association list. -/
def aremove {α β : Type} [DecidableEq α] : List (α × β) → α → List (α × β)
  | [], _ => []
  | e :: rest, k => if e.1 = k then aremove rest k else e :: aremove rest k

/-- Overwriting association-list insert (`fs::write` replaces any previous
content unconditionally). -/
def ainsert {α β : Type} [DecidableEq α] (l : List (α × β)) (k : α) (v : β) :
    List (α × β) :=
  (k, v) :: aremove l k

/-- Error sites of the File Access Layer (`file_ops.rs` formats each OS
error into a message; one constructor per failure shape). -/
inductive FsError
  | notFound
  | isADirectory
  | notADirectory
  | permissionDenied
  | metadataFailed
deriving DecidableEq

/-- The filesystem state: regular files with their textual content,
existing directories, and the paths the OS refuses to stat (permission
failure), the one environmental error the claims quantify over. -/
structure FSState where
  files : List (FPath × String)
  dirs : List FPath
  denied : List FPath
deriving DecidableEq

/-- `path` names a regular file. -/
def isFile (fs : FSState) (p : FPath) : Bool := (alookup fs.files p).isSome

/-- `path` names an existing directory (the root `[]` always exists). -/
def dirExists (fs : FSState) (p : FPath) : Prop := p = [] ∨ p ∈ fs.dirs

instance (fs : FSState) (p : FPath) : Decidable (dirExists fs p) := by
  unfold dirExists; infer_instance

/-- Result of a successful `stat`. -/
inductive PathMeta
  | fileMeta (size : Nat)
  | dirMeta
deriving DecidableEq

/-- `metadata.is_dir()`. -/
def metaIsDir : PathMeta → Bool
  | .fileMeta _ => false
  | .dirMeta => true

/-- `if metadata.is_file() { Some(metadata.len()) } else { None }`. -/
def metaSize : PathMeta → Option Nat
  | .fileMeta n => some n
  | .dirMeta => none

/-- `fs::metadata`: fails on a denied path or a missing path, otherwise
reports file (with byte length) or directory. -/
def statPath (fs : FSState) (p : FPath) : Except FsError PathMeta :=
  if p ∈ fs.denied then .error .permissionDenied
  else match alookup fs.files p with
    | some c => .ok (.fileMeta c.utf8ByteSize)
    | none => if dirExists fs p then .ok .dirMeta else .error .notFound

/-- `file_exists` (`file_ops.rs` line 74): `Path::new(&path).exists()`,
which is `fs::metadata(path).is_ok()` — every stat error collapses to
`false`. -/
def file_exists (fs : FSState) (p : FPath) : Bool :=
  match statPath fs p with
  | .ok _ => true
  | .error _ => false

/-- `read_file_content` (`file_ops.rs` line 15): `fs::read_to_string`.
Stored content is a Lean `String`, hence always valid UTF-8, so the
decoding failure case cannot arise on content our model wrote. -/
def read_file_content (fs : FSState) (p : FPath) : Except FsError String :=
  match alookup fs.files p with
  | some c => .ok c
  | none => if p ∈ fs.dirs then .error .isADirectory else .error .notFound

/-- Every initial segment of a path, `[]` and the path itself included
(the chain of directories `fs::create_dir_all` walks). -/
def pathPrefixes : FPath → List FPath
  | [] => [[]]
  | a :: rest => [] :: (pathPrefixes rest).map (a :: ·)

/-- `fs::create_dir_all`: `Ok` at the empty path; fails when some
directory on the chain exists as a regular file; otherwise records the
whole chain as existing directories (no-op entries are harmless). -/
def create_dir_all (fs : FSState) (p : FPath) : Except FsError FSState :=
  if p = [] then .ok fs
  else if (pathPrefixes p).any (fun q => isFile fs q) then .error .notADirectory
  else .ok { fs with dirs := pathPrefixes p ++ fs.dirs }

/-- `fs::write`: fails on the empty path, on a path naming a directory,
or when the parent directory does not exist; otherwise replaces the
file's content. -/
def fsWrite (fs : FSState) (p : FPath) (content : String) :
    Except FsError FSState :=
  if p = [] then .error .notFound
  else if p ∈ fs.dirs then .error .isADirectory
  else if dirExists fs p.dropLast then
    .ok { fs with files := ainsert fs.files p content }
  else .error .notFound

/-- `Path::new(&path).parent()`: `none` at the empty path, else the path
with its last component dropped. -/
def pathParent (p : FPath) : Option FPath :=
  if p = [] then none else some p.dropLast

/-- `write_file_content` (`file_ops.rs` lines 20-27): creates the missing
parent chain first, then writes unconditionally. -/
def write_file_content (fs : FSState) (p : FPath) (content : String) :
    Except FsError FSState :=
  match pathParent p with
  | none => fsWrite fs p content
  | some par =>
    match create_dir_all fs par with
    | .error e => .error e
    | .ok fs1 => fsWrite fs1 p content

/-- `FileInfo` (`file_ops.rs` lines 7-12). -/
structure FileInfo where
  name : String
  path : FPath
  is_directory : Bool
  size : Option Nat
deriving DecidableEq

/-- Error-short-circuiting map, the shape of a Rust `for` loop pushing
into a `Vec` with `?` inside. -/
def exMapM {α β ε : Type} (f : α → Except ε β) : List α → Except ε (List β)
  | [] => .ok []
  | a :: rest =>
    match f a with
    | .error e => .error e
    | .ok b =>
      match exMapM f rest with
      | .error e => .error e
      | .ok bs => .ok (b :: bs)

/-- `q` lies under `root` (component-wise). -/
def underRoot (root q : FPath) : Bool := decide (q.take root.length = root)

/-- The immediate children `read_dir` enumerates under a directory: every
file or directory key exactly one component below it, each name once. -/
def childKeys (fs : FSState) (p : FPath) : List FPath :=
  ((fs.files.map (fun e => e.1)) ++ fs.dirs).filter
    (fun q => decide (q.length = p.length + 1) && underRoot p q) |>.dedup

/-- `entry.file_name()`: the last path component. -/
def lastComponent (q : FPath) : String := (q.getLast?).getD ""

/-- `list_directory` (`file_ops.rs` lines 30-55): `WalkDir` at depth 1
with `filter_map(|e| e.ok())`.  A root the walker cannot stat (missing
or denied) yields a single `Err` entry that the filter silently drops,
so the call returns `Ok([])`; a root naming a file yields only the root
entry itself, which the `path_str == path` check skips; for a directory
root, each enumerated child has its metadata looked up with `?`, so a
child the OS refuses to stat aborts the call with an error. -/
def list_directory (fs : FSState) (p : FPath) : Except FsError (List FileInfo) :=
  if p ∈ fs.denied then .ok []
  else if isFile fs p then .ok []
  else if p ∈ fs.dirs then
    exMapM (fun q =>
      match statPath fs q with
      | .error _ => .error .metadataFailed
      | .ok m => .ok ⟨lastComponent q, q, metaIsDir m, metaSize m⟩)
      (childKeys fs p)
  else .ok []

/-- Error sites of the Repository Layer (`git_ops.rs` formats each
failure into a message; one constructor per `format!` site the claims
reach). -/
inductive GitError
  | signatureFailed
  | parentLookupFailed
  | pushHeadFailed
  | findCommitFailed
  | invalidCommitId
  | commitNotFound
  | fileNotFoundInCommit
  | writeFailed (e : FsError)
deriving DecidableEq

/-- The specification's error kinds (spec section 7). -/
inductive ErrKind
  | io
  | vcs
  | notFound
  | invalidId
deriving DecidableEq

/-- Classification of each repository-layer error site into the
specification's kinds: "Invalid commit ID" is InvalidId, "Failed to find
commit" / "File not found in commit" are NotFound, "Failed to write
file" is IO, and the remaining repository failures are VCS. -/
def gitErrKind : GitError → ErrKind
  | .invalidCommitId => .invalidId
  | .commitNotFound => .notFound
  | .fileNotFoundInCommit => .notFound
  | .writeFailed _ => .io
  | _ => .vcs

/-- A commit object: its tree (flat map from repository-relative path to
blob content), parent link, message and identity.  `time` is the single
instant `Signature::now` captured for both author and committer. -/
structure Commit where
  tree : List (FPath × String)
  parent : Option Nat
  message : String
  authorName : String
  authorEmail : String
  time : Int
deriving DecidableEq

/-- The on-disk repository state at a project root: object database,
head reference (`none` = unborn branch, no commit yet), index, the
object-id allocator, and the ignore rules in force at the root.  Real
ids are content hashes, injective across the distinct commit contents
produced here; the allocator models that injectivity, and the
40-hex-digit rendering `Oid::to_string` returns is its (injective) hex
form.  `ignored` is the set of repository-relative paths matched by the
ignore rules (`.gitignore` files in the working tree,
`.git/info/exclude`, `core.excludesfile`), abstracted from pattern
syntax to the matched-path set that `IndexAddOption::DEFAULT` consults. -/
structure Repo where
  commits : List (Nat × Commit)
  head : Option Nat
  index : List (FPath × String)
  nextOid : Nat
  ignored : List FPath
deriving DecidableEq

/-- The state `Repository::init` leaves behind: no objects, unborn head,
empty index.  The ignore rules in force are not determined by `init`
(they come from working-tree ignore files and host configuration), so
they are a parameter. -/
def Repo.freshInit (ign : List FPath) : Repo := ⟨[], none, [], 0, ign⟩

/-- A project: its working tree inside the host filesystem, the
repository metadata rooted at `root`.  Every operation of `git_ops.rs`
re-opens the repository at its path; the claims under test all run
against an initialized repository, so the `Repository::open` failure on
a missing repository is not a reachable site here. -/
structure Proj where
  fs : FSState
  repo : Repo
  root : FPath
deriving DecidableEq

/-- `CommitInfo` (`git_ops.rs` lines 5-11).  The source carries `id` as
the 40-hex-digit `to_string` rendering of the oid; the rendering is
injective, so the oid value stands for it. -/
structure CommitInfo where
  id : Nat
  message : String
  author : String
  timestamp : Int
deriving DecidableEq

/-- `Signature::now` rejects identity fields containing angle brackets;
other identities construct fine. -/
def signatureValid (name email : String) : Bool :=
  !(name.data.any (fun c => c == '<' || c == '>')) &&
  !(email.data.any (fun c => c == '<' || c == '>'))

/-- The full unfiltered working-tree snapshot under `root`, keyed by
repository-relative path.  This is the specification's comparison
object — the claim under test asserts the commit tree equals it
exactly; what `add_all` actually stages is `addAllIndex` below, which
additionally applies the ignore rules. -/
def worktreeSnapshot (fs : FSState) (root : FPath) : List (FPath × String) :=
  fs.files.filterMap (fun e =>
    if underRoot root e.1 then some (e.1.drop root.length, e.2) else none)

/-- The index `index.add_all(["*"], IndexAddOption::DEFAULT)` leaves
behind (`git_ops.rs` line 29): libgit2 applies the index-to-workdir
diff, so every working-tree file under `root` is staged with its
current content — except an untracked file matched by the ignore rules,
which yields no delta and is skipped (a tracked file is updated even
when matched) — and every index entry whose working-tree file is gone
is removed.  `idx` is the index before the call (tracked paths),
`ign` the matched-path set of the ignore rules. -/
def addAllIndex (fs : FSState) (root : FPath) (idx : List (FPath × String))
    (ign : List FPath) : List (FPath × String) :=
  fs.files.filterMap (fun e =>
    if underRoot root e.1 then
      if e.1.drop root.length ∈ ign ∧ alookup idx (e.1.drop root.length) = none
      then none
      else some (e.1.drop root.length, e.2)
    else none)

/-- `git_commit` (`git_ops.rs` lines 19-57): build the signature, rebuild
the index via `add_all` from the current working tree, write the tree,
resolve the parent as the head commit when a head exists (failing if the
head commit cannot be loaded), and append the new commit, moving `HEAD`
onto it.  Returns the new oid. -/
def git_commit (st : Proj) (message authorName authorEmail : String)
    (now : Int) : Except GitError (Nat × Proj) :=
  if signatureValid authorName authorEmail then
    let snap := addAllIndex st.fs st.root st.repo.index st.repo.ignored
    let oid := st.repo.nextOid
    let finish : Option Nat → Nat × Proj := fun parent =>
      (oid, { st with repo :=
        { commits := (oid, ⟨snap, parent, message, authorName, authorEmail, now⟩)
            :: st.repo.commits
          head := some oid
          index := snap
          nextOid := oid + 1
          ignored := st.repo.ignored } })
    match st.repo.head with
    | none => .ok (finish none)
    | some h =>
      match alookup st.repo.commits h with
      | none => .error .parentLookupFailed
      | some _ => .ok (finish (some h))
  else .error .signatureFailed

/-- The revwalk loop of `git_log`: fuel-bounded ancestry walk that stops
as soon as `max_count` records are collected (the `i >= max_count` break
fires before the commit at position `i` is loaded).  The fuel only
guards against head chains longer than the object database, which no
reachable repository state produces. -/
def walkLog (cs : List (Nat × Commit)) :
    Option Nat → Nat → Nat → Except GitError (List CommitInfo)
  | _, 0, _ => .ok []
  | none, _ + 1, _ => .ok []
  | some h, fuel + 1, count =>
    if count = 0 then .ok []
    else
      match alookup cs h with
      | none => .error .findCommitFailed
      | some c =>
        match walkLog cs c.parent fuel (count - 1) with
        | .error e => .error e
        | .ok rest => .ok (⟨h, c.message, c.authorName, c.time⟩ :: rest)

/-- `git_log` (`git_ops.rs` lines 76-100): `revwalk.push_head()` fails on
an unborn head (zero commits); otherwise the walk from the head commit
collects up to `max_count` records, most recent first. -/
def git_log (st : Proj) (maxCount : Nat) : Except GitError (List CommitInfo) :=
  match st.repo.head with
  | none => .error .pushHeadFailed
  | some h => walkLog st.repo.commits (some h) (st.repo.commits.length + 1) maxCount

/-- Hex digit test of `git__fromhex` (both cases accepted). -/
def isHexCh (c : Char) : Bool :=
  (decide ('0' ≤ c) && decide (c ≤ '9')) ||
  (decide ('a' ≤ c) && decide (c ≤ 'f')) ||
  (decide ('A' ≤ c) && decide (c ≤ 'F'))

/-- Numeric value of a hex digit. -/
def hexDigVal (c : Char) : Nat :=
  if decide ('0' ≤ c) && decide (c ≤ '9') then c.toNat - 48
  else if decide ('a' ≤ c) && decide (c ≤ 'f') then c.toNat - 87
  else if decide ('A' ≤ c) && decide (c ≤ 'F') then c.toNat - 55
  else 16

/-- Well-formedness test of `Oid::from_str` (libgit2
`git_oid_fromstrn`): nonempty, at most 40 characters, all hex. -/
def wellFormedOid (s : String) : Bool :=
  decide (1 ≤ s.length) && decide (s.length ≤ 40) && s.data.all isHexCh

/-- `Oid::from_str`: parse the hex digits into the left-aligned,
zero-right-padded 160-bit object id (a short string fills the leading
nibbles, the rest stay zero), or fail on a malformed string. -/
def oidFromStr (s : String) : Option Nat :=
  if wellFormedOid s then
    some ((s.data.foldl (fun a c => a * 16 + hexDigVal c) 0) * 16 ^ (40 - s.length))
  else none

/-- `restore_file_version` (`git_ops.rs` lines 125-145): parse the
commit id, load the commit, find the path inside the commit's tree
(NotFound site when absent), load the blob, and overwrite the single
working-tree file at `root.join(file_path)` with `std::fs::write` — no
parent-directory creation, no index or head update, no new commit. -/
def restore_file_version (st : Proj) (filePath : FPath) (commitId : String) :
    Except GitError Proj :=
  match oidFromStr commitId with
  | none => .error .invalidCommitId
  | some oid =>
    match alookup st.repo.commits oid with
    | none => .error .commitNotFound
    | some c =>
      match alookup c.tree filePath with
      | none => .error .fileNotFoundInCommit
      | some content =>
        match fsWrite st.fs (st.root ++ filePath) content with
        | .error e => .error (.writeFailed e)
        | .ok fs2 => .ok { st with fs := fs2 }

theorem alookup_ainsert_self {α β : Type} [DecidableEq α]
    (l : List (α × β)) (k : α) (v : β) :
    alookup (ainsert l k v) k = some v := by
  simp [ainsert, alookup]

theorem alookup_aremove_ne {α β : Type} [DecidableEq α]
    (l : List (α × β)) (k q : α) (h : q ≠ k) :
    alookup (aremove l k) q = alookup l q := by
  induction l with
  | nil => rfl
  | cons e rest ih =>
    by_cases he : e.1 = k
    · have hq : ¬ (e.1 = q) := by rw [he]; exact fun hk => h hk.symm
      rw [aremove, if_pos he, ih]
      simp only [alookup]
      rw [if_neg hq]
    · rw [aremove, if_neg he]
      simp only [alookup]
      by_cases hq : e.1 = q
      · rw [if_pos hq, if_pos hq]
      · rw [if_neg hq, if_neg hq, ih]

theorem alookup_ainsert_ne {α β : Type} [DecidableEq α]
    (l : List (α × β)) (k q : α) (v : β) (h : q ≠ k) :
    alookup (ainsert l k v) q = alookup l q := by
  have hk : ¬ (k = q) := fun hk => h hk.symm
  unfold ainsert
  simp only [alookup]
  rw [if_neg hk, alookup_aremove_ne l k q h]

theorem take_append_self (r t : FPath) : (r ++ t).take r.length = r := by
  induction r with
  | nil => rfl
  | cons a r ih => simp [List.take, ih]

theorem underRoot_append (r t : FPath) : underRoot r (r ++ t) = true := by
  simp [underRoot, take_append_self]

theorem eq_append_of_underRoot {r q : FPath} (h : underRoot r q = true) :
    r ++ q.drop r.length = q := by
  have ht : q.take r.length = r := by simpa [underRoot] using h
  conv_rhs => rw [← List.take_append_drop r.length q]
  rw [ht]

theorem alookup_addAllIndex (fs : FSState) (root : FPath)
    (idx : List (FPath × String)) (ign : List FPath) (rel : FPath) :
    alookup (addAllIndex fs root idx ign) rel =
      if rel ∈ ign ∧ alookup idx rel = none then none
      else alookup fs.files (root ++ rel) := by
  unfold addAllIndex
  induction fs.files with
  | nil =>
    by_cases hc : rel ∈ ign ∧ alookup idx rel = none
    · rw [if_pos hc]; rfl
    · rw [if_neg hc]; rfl
  | cons e rest ih =>
    rw [List.filterMap_cons]
    by_cases hu : underRoot root e.1 = true
    · rw [if_pos hu]
      have hiff : (e.1.drop root.length = rel) ↔ (e.1 = root ++ rel) := by
        constructor
        · intro hd; rw [← eq_append_of_underRoot hu, hd]
        · intro hq; rw [hq, List.drop_left]
      by_cases hig : e.1.drop root.length ∈ ign ∧
          alookup idx (e.1.drop root.length) = none
      · rw [if_pos hig]
        simp only
        rw [ih]
        by_cases hc : rel ∈ ign ∧ alookup idx rel = none
        · rw [if_pos hc, if_pos hc]
        · rw [if_neg hc, if_neg hc]
          have hne : ¬ (e.1 = root ++ rel) := by
            intro hq
            have hd' : e.1.drop root.length = rel := by rw [hq, List.drop_left]
            exact hc (hd' ▸ hig)
          simp only [alookup]
          rw [if_neg hne]
      · rw [if_neg hig]
        simp only [alookup]
        by_cases hd : e.1.drop root.length = rel
        · have hc : ¬ (rel ∈ ign ∧ alookup idx rel = none) := by
            rw [← hd]; exact hig
          rw [if_pos hd, if_neg hc, if_pos (hiff.mp hd)]
        · rw [if_neg hd, ih]
          by_cases hc : rel ∈ ign ∧ alookup idx rel = none
          · rw [if_pos hc, if_pos hc]
          · rw [if_neg hc, if_neg hc, if_neg (fun hq => hd (hiff.mpr hq))]
    · rw [if_neg hu]
      simp only
      rw [ih]
      have hne : ¬ (e.1 = root ++ rel) := by
        intro hq; exact hu (by rw [hq]; exact underRoot_append root rel)
      by_cases hc : rel ∈ ign ∧ alookup idx rel = none
      · rw [if_pos hc, if_pos hc]
      · rw [if_neg hc, if_neg hc]
        simp only [alookup]
        rw [if_neg hne]

theorem exMapM_error {α β ε : Type} (f : α → Except ε β) (l : List α) (e : ε)
    (h : exMapM f l = .error e) : ∃ a, a ∈ l ∧ f a = .error e := by
  induction l with
  | nil => simp [exMapM] at h
  | cons a rest ih =>
    unfold exMapM at h
    cases hfa : f a with
    | error e' =>
      rw [hfa] at h
      simp only at h
      rw [Except.error.injEq] at h
      exact ⟨a, List.mem_cons_self a rest, by rw [hfa, h]⟩
    | ok b =>
      rw [hfa] at h
      simp only at h
      cases hr : exMapM f rest with
      | error e' =>
        rw [hr] at h
        simp only at h
        rw [Except.error.injEq] at h
        rcases ih (by rw [hr, h]) with ⟨x, hx, hfx⟩
        exact ⟨x, List.mem_cons_of_mem a hx, hfx⟩
      | ok bs => rw [hr] at h; exact absurd h (by simp)

theorem mem_pathPrefixes_self (p : FPath) : p ∈ pathPrefixes p := by
  induction p with
  | nil => exact List.mem_singleton.mpr rfl
  | cons a rest ih =>
    exact List.mem_cons_of_mem _ (List.mem_map_of_mem (a :: ·) ih)

theorem length_le_of_mem_pathPrefixes {q p : FPath} (h : q ∈ pathPrefixes p) :
    q.length ≤ p.length := by
  induction p generalizing q with
  | nil => simp [pathPrefixes] at h; simp [h]
  | cons a rest ih =>
    simp [pathPrefixes] at h
    rcases h with h | ⟨r, hr, hq⟩
    · simp [h]
    · rw [← hq]; simpa using ih hr

theorem walkLog_count_zero (cs : List (Nat × Commit)) (oh : Option Nat)
    (fuel : Nat) : walkLog cs oh fuel 0 = .ok [] := by
  cases oh <;> cases fuel <;> simp [walkLog]

theorem fsWrite_ok {fs : FSState} {p : FPath} {c : String} {fs' : FSState}
    (h : fsWrite fs p c = .ok fs') :
    p ≠ [] ∧ p ∉ fs.dirs ∧ dirExists fs p.dropLast ∧
    fs' = { fs with files := ainsert fs.files p c } := by
  unfold fsWrite at h
  by_cases h1 : p = []
  · rw [if_pos h1] at h; exact absurd h (by simp)
  · rw [if_neg h1] at h
    by_cases h2 : p ∈ fs.dirs
    · rw [if_pos h2] at h; exact absurd h (by simp)
    · rw [if_neg h2] at h
      by_cases h3 : dirExists fs p.dropLast
      · rw [if_pos h3] at h
        rw [Except.ok.injEq] at h
        exact ⟨h1, h2, h3, h.symm⟩
      · rw [if_neg h3] at h; exact absurd h (by simp)

theorem fsWrite_ok_of (fs : FSState) (p : FPath) (c : String)
    (h1 : p ≠ []) (h2 : p ∉ fs.dirs) (h3 : dirExists fs p.dropLast) :
    fsWrite fs p c = .ok { fs with files := ainsert fs.files p c } := by
  unfold fsWrite
  rw [if_neg h1, if_neg h2, if_pos h3]

theorem write_file_content_ok {fs : FSState} {p : FPath} {c : String}
    {fs' : FSState} (h : write_file_content fs p c = .ok fs') :
    p ≠ [] ∧
    alookup fs'.files p = some c ∧ p ∉ fs'.dirs ∧ dirExists fs' p.dropLast ∧
    fs'.denied = fs.denied ∧
    (∀ q, q ≠ p → alookup fs'.files q = alookup fs.files q) := by
  unfold write_file_content at h
  by_cases hp : p = []
  · rw [pathParent, if_pos hp] at h
    simp only at h
    rcases fsWrite_ok h with ⟨hne, _, _, _⟩
    exact absurd hp hne
  · rw [pathParent, if_neg hp] at h
    simp only at h
    unfold create_dir_all at h
    by_cases hd : p.dropLast = []
    · rw [if_pos hd] at h
      simp only at h
      rcases fsWrite_ok h with ⟨_, hnd, hde, hfs⟩
      subst hfs
      refine ⟨hp, alookup_ainsert_self _ _ _, hnd, hde, rfl, ?_⟩
      intro q hq
      exact alookup_ainsert_ne _ _ _ _ hq
    · rw [if_neg hd] at h
      by_cases ha : (pathPrefixes p.dropLast).any (fun q => isFile fs q)
      · rw [if_pos ha] at h; exact absurd h (by simp)
      · rw [if_neg ha] at h
        simp only at h
        rcases fsWrite_ok h with ⟨_, hnd, hde, hfs⟩
        subst hfs
        refine ⟨hp, alookup_ainsert_self _ _ _, hnd, hde, rfl, ?_⟩
        intro q hq
        exact alookup_ainsert_ne _ _ _ _ hq

theorem git_commit_ok {st : Proj} {m a e : String} {t : Int} {cid : Nat}
    {st' : Proj} (h : git_commit st m a e t = .ok (cid, st')) :
    cid = st.repo.nextOid ∧ st'.fs = st.fs ∧ st'.root = st.root ∧
    st'.repo.head = some cid ∧ st'.repo.nextOid = cid + 1 ∧
    st'.repo.index = addAllIndex st.fs st.root st.repo.index st.repo.ignored ∧
    st'.repo.commits =
      (cid, ⟨addAllIndex st.fs st.root st.repo.index st.repo.ignored,
        st.repo.head, m, a, e, t⟩)
        :: st.repo.commits := by
  unfold git_commit at h
  by_cases hs : signatureValid a e = true
  · rw [if_pos hs] at h
    simp only at h
    cases hh : st.repo.head with
    | none =>
      rw [hh] at h
      simp only at h
      rw [Except.ok.injEq, Prod.mk.injEq] at h
      rcases h with ⟨h1, h2⟩
      subst h1
      subst h2
      exact ⟨rfl, rfl, rfl, rfl, rfl, rfl, rfl⟩
    | some hd =>
      rw [hh] at h
      simp only at h
      cases hl : alookup st.repo.commits hd with
      | none => rw [hl] at h; exact absurd h (by simp)
      | some pc =>
        rw [hl] at h
        simp only at h
        rw [Except.ok.injEq, Prod.mk.injEq] at h
        rcases h with ⟨h1, h2⟩
        subst h1
        subst h2
        exact ⟨rfl, rfl, rfl, rfl, rfl, rfl, rfl⟩
  · rw [if_neg hs] at h; exact absurd h (by simp)

/-- Concrete single-file project fixture for the closed witnesses: one
working-tree file `f` with content `"v1"`, repository freshly
initialized at the host root. -/
def fsFix : FSState := ⟨[(["f"], "v1")], [], []⟩

/-- The fixture project before any commit. -/
def projFix : Proj := ⟨fsFix, Repo.freshInit [], []⟩

/-- The commit object the first fixture commit produces. -/
def commitFix : Commit := ⟨[(["f"], "v1")], none, "m1", "A", "a@b", 7⟩

/-- The fixture project after its first commit. -/
def projFix1 : Proj :=
  ⟨fsFix, ⟨[(0, commitFix)], some 0, [(["f"], "v1")], 1, []⟩, []⟩

/-- The fixture working tree after `f` is overwritten with `"v2"`. -/
def fsFix2 : FSState := ⟨[(["f"], "v2")], [], []⟩

/-- The commit object the second fixture commit produces. -/
def commitFix2 : Commit := ⟨[(["f"], "v2")], some 0, "m2", "A", "a@b", 8⟩

/-- The fixture project after overwrite and second commit. -/
def projFix2 : Proj :=
  ⟨fsFix2, ⟨[(1, commitFix2), (0, commitFix)], some 1, [(["f"], "v2")], 2, []⟩, []⟩

/-- C1 counterexample: with an ignore rule matching the untracked file
`g` (for example a `.gitignore` entry), `add_all(["*"],
IndexAddOption::DEFAULT)` skips `g`, so the new commit's tree does not
equal the full working-tree snapshot — the claim as stated fails at
this input. -/
theorem c1_commit_snapshot_counterexample :
    git_commit ⟨⟨[(["g"], "x")], [], []⟩, ⟨[], none, [], 0, [["g"]]⟩, []⟩
        "m" "A" "a@b" 0
      = .ok (0, ⟨⟨[(["g"], "x")], [], []⟩,
          ⟨[(0, ⟨[], none, "m", "A", "a@b", 0⟩)], some 0, [], 1, [["g"]]⟩, []⟩) ∧
    ((alookup (⟨[(0, ⟨[], none, "m", "A", "a@b", 0⟩)], some 0, [], 1,
          [["g"]]⟩ : Repo).commits 0).map Commit.tree
        ≠ some (worktreeSnapshot ⟨[(["g"], "x")], [], []⟩ [])) :=
  ⟨by decide, by decide⟩

/-- C1 (amended): a successful `commitAll` rebuilds the index from the
current working tree alone — adding or updating every file under the
root that is already tracked or not matched by the ignore rules, and
dropping every index entry whose working-tree file is gone — and the
new commit's tree object is exactly this staged snapshot: at every
tracked-or-unignored path it mirrors the current working-tree contents
(new files appear, deleted files disappear), untracked files matched by
the ignore rules being the single filtering exception. -/
theorem c1_commit_stages_snapshot (st : Proj) (m a e : String) (t : Int)
    (cid : Nat) (st' : Proj) (h : git_commit st m a e t = .ok (cid, st')) :
    (alookup st'.repo.commits cid).map Commit.tree
        = some (addAllIndex st.fs st.root st.repo.index st.repo.ignored) ∧
    st'.repo.index = addAllIndex st.fs st.root st.repo.index st.repo.ignored ∧
    (∀ rel, alookup (addAllIndex st.fs st.root st.repo.index st.repo.ignored) rel
        = if rel ∈ st.repo.ignored ∧ alookup st.repo.index rel = none
          then none
          else alookup st.fs.files (st.root ++ rel)) := by
  rcases git_commit_ok h with ⟨_, _, _, _, _, hidx, hcs⟩
  refine ⟨?_, hidx,
    fun rel => alookup_addAllIndex st.fs st.root st.repo.index st.repo.ignored rel⟩
  rw [hcs]; simp [alookup]

/-- Fixture with an untracked ignored file `g` alongside the ordinary
file `f`. -/
def projIgn : Proj :=
  ⟨⟨[(["f"], "v1"), (["g"], "x")], [], []⟩, ⟨[], none, [], 0, [["g"]]⟩, []⟩

/-- The ignored-file fixture after one commit: `f` staged, `g` skipped. -/
def projIgn1 : Proj :=
  ⟨⟨[(["f"], "v1"), (["g"], "x")], [], []⟩,
    ⟨[(0, ⟨[(["f"], "v1")], none, "m", "A", "a@b", 7⟩)], some 0,
      [(["f"], "v1")], 1, [["g"]]⟩, []⟩

/-- Witness for C1 (amended) at a fixture with both a staged and an
ignored untracked file. -/
theorem c1_commit_stages_snapshot_witness :
    git_commit projIgn "m" "A" "a@b" 7 = .ok (0, projIgn1) ∧
    ((alookup projIgn1.repo.commits 0).map Commit.tree
        = some (addAllIndex projIgn.fs projIgn.root projIgn.repo.index
            projIgn.repo.ignored) ∧
      projIgn1.repo.index = addAllIndex projIgn.fs projIgn.root
          projIgn.repo.index projIgn.repo.ignored ∧
      (∀ rel, alookup (addAllIndex projIgn.fs projIgn.root projIgn.repo.index
            projIgn.repo.ignored) rel
          = if rel ∈ projIgn.repo.ignored ∧ alookup projIgn.repo.index rel = none
            then none
            else alookup projIgn.fs.files (projIgn.root ++ rel))) :=
  ⟨by decide,
   c1_commit_stages_snapshot projIgn "m" "A" "a@b" 7 0 projIgn1 (by decide)⟩

/-- C2 counterexample: on a freshly initialized repository with zero
commits, `git_log` returns the head-lookup error, not an empty `Ok`
sequence, so the claim as stated fails at this input. -/
theorem c2_empty_log_counterexample :
    git_log ⟨⟨[], [], []⟩, Repo.freshInit [], []⟩ 5 = .error .pushHeadFailed ∧
    git_log ⟨⟨[], [], []⟩, Repo.freshInit [], []⟩ 5 ≠ .ok [] := by
  exact ⟨rfl, by decide⟩

/-- C2 (amended): `log(root, N)` on a freshly initialized repository with
zero commits returns the defined head-lookup error — it never panics
(the operation is a total function into a defined error value) and never
returns an empty sequence. -/
theorem c2_empty_log_is_head_error (fs : FSState) (root : FPath) (n : Nat)
    (ign : List FPath) :
    git_log ⟨fs, Repo.freshInit ign, root⟩ n = .error .pushHeadFailed := rfl

/-- C5: when the commit id resolves but the requested path is absent from
that commit's tree, restore fails at the tree-lookup site — the NotFound
kind, not IO — and, the failure occurring before the `fs::write` call,
no working-tree file is written (the error result carries no state). -/
theorem c5_restore_missing_path (st : Proj) (f : FPath) (s : String)
    (oid : Nat) (c : Commit) (h1 : oidFromStr s = some oid)
    (h2 : alookup st.repo.commits oid = some c)
    (h3 : alookup c.tree f = none) :
    restore_file_version st f s = .error .fileNotFoundInCommit ∧
    gitErrKind .fileNotFoundInCommit = .notFound := by
  refine ⟨?_, rfl⟩
  unfold restore_file_version
  rw [h1]
  simp only
  rw [h2]
  simp only
  rw [h3]

/-- Witness for C5 at the concrete fixture. -/
theorem c5_restore_missing_path_witness :
    (oidFromStr "0" = some 0 ∧
      alookup projFix1.repo.commits 0 = some commitFix ∧
      alookup commitFix.tree ["g"] = none) ∧
    (restore_file_version projFix1 ["g"] "0" = .error .fileNotFoundInCommit ∧
      gitErrKind .fileNotFoundInCommit = .notFound) :=
  ⟨⟨by decide, by decide, by decide⟩,
   c5_restore_missing_path projFix1 ["g"] "0" 0 commitFix
     (by decide) (by decide) (by decide)⟩

/-- C7: a successful restore modifies only the single working-tree file
at `root ++ filePath`: the repository state (commits, head reference,
index — in particular no new commit), the directory structure and the
denied set are unchanged, and every other file keeps its content. -/
theorem c7_restore_frame (st : Proj) (f : FPath) (s : String) (st' : Proj)
    (h : restore_file_version st f s = .ok st') :
    st'.repo = st.repo ∧ st'.root = st.root ∧
    st'.fs.dirs = st.fs.dirs ∧ st'.fs.denied = st.fs.denied ∧
    (∀ q, q ≠ st.root ++ f → alookup st'.fs.files q = alookup st.fs.files q) := by
  unfold restore_file_version at h
  cases ho : oidFromStr s with
  | none => rw [ho] at h; exact absurd h (by simp)
  | some oid =>
    rw [ho] at h
    simp only at h
    cases hc : alookup st.repo.commits oid with
    | none => rw [hc] at h; exact absurd h (by simp)
    | some c =>
      rw [hc] at h
      simp only at h
      cases ht : alookup c.tree f with
      | none => rw [ht] at h; exact absurd h (by simp)
      | some content =>
        rw [ht] at h
        simp only at h
        cases hw : fsWrite st.fs (st.root ++ f) content with
        | error e => rw [hw] at h; exact absurd h (by simp)
        | ok fs2 =>
          rw [hw] at h
          simp only at h
          rw [Except.ok.injEq] at h
          rcases fsWrite_ok hw with ⟨_, _, _, hfs⟩
          subst hfs
          rw [← h]
          refine ⟨rfl, rfl, rfl, rfl, ?_⟩
          intro q hq
          exact alookup_ainsert_ne _ _ _ _ hq

/-- Witness for C7 at the concrete fixture. -/
theorem c7_restore_frame_witness :
    restore_file_version projFix2 ["f"] "0"
        = .ok ⟨⟨[(["f"], "v1")], [], []⟩, projFix2.repo, []⟩ ∧
    (projFix2.repo = projFix2.repo ∧ ([] : FPath) = projFix2.root ∧
      ([] : List FPath) = projFix2.fs.dirs ∧
      ([] : List FPath) = projFix2.fs.denied ∧
      (∀ q, q ≠ projFix2.root ++ ["f"] →
        alookup [(["f"], "v1")] q = alookup projFix2.fs.files q)) := by
  have h : restore_file_version projFix2 ["f"] "0"
      = .ok ⟨⟨[(["f"], "v1")], [], []⟩, projFix2.repo, []⟩ := by decide
  rcases c7_restore_frame projFix2 ["f"] "0"
    ⟨⟨[(["f"], "v1")], [], []⟩, projFix2.repo, []⟩ h with ⟨a1, a2, a3, a4, a5⟩
  exact ⟨h, a1, a2, a3, a4, a5⟩

/-- C8: `pathExists` is a total boolean — it never fails — and collapses
every stat error, permission-denied included, to `false`. -/
theorem c8_path_exists_total (fs : FSState) (p : FPath) :
    (∀ e, statPath fs p = .error e → file_exists fs p = false) ∧
    (p ∈ fs.denied → file_exists fs p = false) := by
  constructor
  · intro e he
    unfold file_exists
    rw [he]
  · intro hd
    have he : statPath fs p = .error .permissionDenied := by
      unfold statPath; rw [if_pos hd]
    unfold file_exists
    rw [he]

/-- Witness for C8 on a permission-denied path. -/
theorem c8_path_exists_total_witness :
    (["x"] ∈ (⟨[], [], [["x"]]⟩ : FSState).denied) ∧
    file_exists ⟨[], [], [["x"]]⟩ ["x"] = false :=
  ⟨by decide, (c8_path_exists_total ⟨[], [], [["x"]]⟩ ["x"]).2 (by decide)⟩

/-- C9: a commit identifier that is not well-formed hex (nonempty, at
most forty hex digits) makes restore fail at the id-parsing site — the
InvalidId kind, not VCS, NotFound or IO — before anything is looked up
or written, so the working tree is untouched (the error result carries
no state). -/
theorem c9_invalid_commit_id (st : Proj) (f : FPath) (s : String)
    (h : wellFormedOid s = false) :
    restore_file_version st f s = .error .invalidCommitId ∧
    gitErrKind .invalidCommitId = .invalidId := by
  refine ⟨?_, rfl⟩
  unfold restore_file_version
  have ho : oidFromStr s = none := by
    unfold oidFromStr
    rw [h]
    simp
  rw [ho]

/-- Witness for C9 on a non-hex identifier. -/
theorem c9_invalid_commit_id_witness :
    wellFormedOid "zz" = false ∧
    (restore_file_version projFix ["f"] "zz" = .error .invalidCommitId ∧
      gitErrKind .invalidCommitId = .invalidId) :=
  ⟨by decide, c9_invalid_commit_id projFix ["f"] "zz" (by decide)⟩

/-- C4 counterexample: `writeFile` does not succeed for every path — on a
path that names an existing directory, `fs::write` fails with the
is-a-directory error, so the claim as stated fails at this input. -/
theorem c4_write_counterexample :
    write_file_content ⟨[], [["d"]], []⟩ ["d"] "x" = .error .isADirectory := by
  decide

/-- C4 (amended): for every non-empty path `p` that does not name an
existing directory and none of whose ancestors names an existing file,
`writeFile(p, c)` succeeds even when the parent directories do not yet
exist (creating them first, overwriting unconditionally), and a
subsequent `readFile(p)` returns exactly `c`. -/
theorem c4_write_read_roundtrip (fs : FSState) (p : FPath) (c : String)
    (h1 : p ≠ []) (h2 : p ∉ fs.dirs)
    (h3 : ∀ q, q ∈ pathPrefixes p.dropLast → isFile fs q = false) :
    (write_file_content fs p c).map (fun fs' => read_file_content fs' p)
      = .ok (.ok c) := by
  unfold write_file_content
  rw [pathParent, if_neg h1]
  simp only
  unfold create_dir_all
  by_cases hd : p.dropLast = []
  · rw [if_pos hd]
    simp only
    rw [fsWrite_ok_of fs p c h1 h2 (by rw [hd]; exact .inl rfl)]
    simp only [Except.map]
    unfold read_file_content
    rw [alookup_ainsert_self]
  · rw [if_neg hd]
    have hany : ¬ ((pathPrefixes p.dropLast).any (fun q => isFile fs q) = true) := by
      rw [List.any_eq_true]
      rintro ⟨q, hq, hf⟩
      rw [h3 q hq] at hf
      exact absurd hf (by simp)
    rw [if_neg hany]
    simp only
    have hnd1 : p ∉ pathPrefixes p.dropLast ++ fs.dirs := by
      intro hp
      rcases List.mem_append.mp hp with hp | hp
      · have hle := length_le_of_mem_pathPrefixes hp
        rw [List.length_dropLast] at hle
        have hpos : 0 < p.length := List.length_pos.mpr h1
        omega
      · exact h2 hp
    have hde : dirExists { fs with dirs := pathPrefixes p.dropLast ++ fs.dirs }
        p.dropLast :=
      .inr (List.mem_append_left _ (mem_pathPrefixes_self _))
    rw [fsWrite_ok_of { fs with dirs := pathPrefixes p.dropLast ++ fs.dirs }
      p c h1 hnd1 hde]
    simp only [Except.map]
    unfold read_file_content
    rw [alookup_ainsert_self]

/-- Witness for C4 (amended) at a two-level path with no existing parent. -/
theorem c4_write_read_roundtrip_witness :
    ((["a", "b"] : FPath) ≠ [] ∧
      (["a", "b"] : FPath) ∉ (⟨[], [], []⟩ : FSState).dirs ∧
      (∀ q, q ∈ pathPrefixes (["a", "b"] : FPath).dropLast →
        isFile ⟨[], [], []⟩ q = false)) ∧
    (write_file_content ⟨[], [], []⟩ ["a", "b"] "hi").map
        (fun fs' => read_file_content fs' ["a", "b"]) = .ok (.ok "hi") :=
  ⟨⟨by decide, by decide, by decide⟩,
   c4_write_read_roundtrip ⟨[], [], []⟩ ["a", "b"] "hi"
     (by decide) (by decide) (by decide)⟩

theorem alookup_isSome_of_mem_keys {α β : Type} [DecidableEq α]
    {l : List (α × β)} {q : α} (h : q ∈ l.map (fun e => e.1)) :
    (alookup l q).isSome = true := by
  induction l with
  | nil => simp at h
  | cons e rest ih =>
    simp only [List.map_cons, List.mem_cons] at h
    simp only [alookup]
    by_cases he : e.1 = q
    · rw [if_pos he]; rfl
    · rw [if_neg he]
      rcases h with h | h
      · exact absurd h.symm he
      · exact ih h

theorem childKeys_file_or_dir {fs : FSState} {p q : FPath}
    (h : q ∈ childKeys fs p) : isFile fs q = true ∨ q ∈ fs.dirs := by
  unfold childKeys at h
  have h1 := List.mem_dedup.mp h
  have h2 := List.mem_of_mem_filter h1
  rcases List.mem_append.mp h2 with h3 | h3
  · exact .inl (alookup_isSome_of_mem_keys h3)
  · exact .inr h3

/-- C10: a root path that does not exist, or that the OS refuses to stat
at all, makes the depth-1 walker yield only a single error entry, which
`filter_map(|e| e.ok())` silently drops — so `listDirectory` returns an
empty `Ok` sequence, not an IO error.  Conversely, the only error the
operation ever returns is the metadata-lookup failure on a successfully
enumerated child (a denied child path). -/
theorem c10_list_directory_errors (fs : FSState) (p : FPath) :
    ((p ∈ fs.denied ∨ (isFile fs p = false ∧ p ∉ fs.dirs)) →
      list_directory fs p = .ok []) ∧
    (∀ e, list_directory fs p = .error e →
      e = .metadataFailed ∧
      (childKeys fs p).any (fun q => decide (q ∈ fs.denied)) = true) := by
  constructor
  · rintro (hd | ⟨hf, hnd⟩)
    · unfold list_directory
      rw [if_pos hd]
    · unfold list_directory
      by_cases hden : p ∈ fs.denied
      · rw [if_pos hden]
      · rw [if_neg hden]
        have hf' : ¬ (isFile fs p = true) := by rw [hf]; simp
        rw [if_neg hf', if_neg hnd]
  · intro e he
    unfold list_directory at he
    by_cases hden : p ∈ fs.denied
    · rw [if_pos hden] at he; exact absurd he (by simp)
    · rw [if_neg hden] at he
      by_cases hf : isFile fs p = true
      · rw [if_pos hf] at he; exact absurd he (by simp)
      · rw [if_neg hf] at he
        by_cases hdir : p ∈ fs.dirs
        · rw [if_pos hdir] at he
          rcases exMapM_error _ _ _ he with ⟨q, hq, hfq⟩
          cases hs : statPath fs q with
          | ok m => rw [hs] at hfq; exact absurd hfq (by simp)
          | error e' =>
            rw [hs] at hfq
            simp only at hfq
            rw [Except.error.injEq] at hfq
            refine ⟨hfq.symm, ?_⟩
            rw [List.any_eq_true]
            refine ⟨q, hq, ?_⟩
            by_cases hqd : q ∈ fs.denied
            · simp [hqd]
            · exfalso
              unfold statPath at hs
              rw [if_neg hqd] at hs
              rcases childKeys_file_or_dir hq with hqf | hqdir
              · unfold isFile at hqf
                cases hl : alookup fs.files q with
                | none => rw [hl] at hqf; simp at hqf
                | some c2 => rw [hl] at hs; simp at hs
              · cases hl : alookup fs.files q with
                | some c2 => rw [hl] at hs; simp at hs
                | none =>
                  rw [hl] at hs
                  simp only at hs
                  rw [if_pos (show dirExists fs q from Or.inr hqdir)] at hs
                  simp at hs
        · rw [if_neg hdir] at he; exact absurd he (by simp)

/-- Witness for C10 on a missing root path. -/
theorem c10_list_directory_errors_witness :
    ((["nope"] : FPath) ∈ (⟨[], [], []⟩ : FSState).denied ∨
      (isFile ⟨[], [], []⟩ ["nope"] = false ∧
        (["nope"] : FPath) ∉ (⟨[], [], []⟩ : FSState).dirs)) ∧
    list_directory ⟨[], [], []⟩ ["nope"] = .ok [] :=
  ⟨by decide,
   (c10_list_directory_errors ⟨[], [], []⟩ ["nope"]).1 (by decide)⟩

/-- C6: after two successful `commitAll` calls in a row, `log(root, 2)`
returns exactly two records, most recent first, the two ids differ, and
the second commit's parent is the first commit (the head at its commit
time). -/
theorem c6_commit_chaining (st st1 st2 : Proj) (m1 m2 a e : String)
    (t1 t2 : Int) (id1 id2 : Nat) (_hm : m1 ≠ m2)
    (h1 : git_commit st m1 a e t1 = .ok (id1, st1))
    (h2 : git_commit st1 m2 a e t2 = .ok (id2, st2)) :
    git_log st2 2 = .ok [⟨id2, m2, a, t2⟩, ⟨id1, m1, a, t1⟩] ∧
    id2 ≠ id1 ∧
    (alookup st2.repo.commits id2).map Commit.parent = some (some id1) := by
  rcases git_commit_ok h1 with ⟨hc1, _, _, hh1, hn1, _, hcs1⟩
  rcases git_commit_ok h2 with ⟨hc2, _, _, hh2, hn2, _, hcs2⟩
  have hid : id2 = id1 + 1 := by rw [hc2, hn1]
  have hne : ¬ (id2 = id1) := by omega
  refine ⟨?_, hne, ?_⟩
  · unfold git_log
    rw [hh2]
    simp only
    rw [hcs2, hh1, hcs1]
    simp [walkLog, alookup, hne, walkLog_count_zero]
  · rw [hcs2]
    simp [alookup, hh1]

/-- Fixture commit object of the second chained commit (same tree as the
first: nothing changed between the two commits). -/
def commitFix2b : Commit := ⟨[(["f"], "v1")], some 0, "m2", "A", "a@b", 8⟩

/-- Fixture project after two chained commits with no edit in between. -/
def projFix2b : Proj :=
  ⟨fsFix, ⟨[(1, commitFix2b), (0, commitFix)], some 1, [(["f"], "v1")], 2, []⟩, []⟩

/-- Witness for C6 at the concrete fixture. -/
theorem c6_commit_chaining_witness :
    (("m1" : String) ≠ "m2" ∧
      git_commit projFix "m1" "A" "a@b" 7 = .ok (0, projFix1) ∧
      git_commit projFix1 "m2" "A" "a@b" 8 = .ok (1, projFix2b)) ∧
    (git_log projFix2b 2 = .ok [⟨1, "m2", "A", 8⟩, ⟨0, "m1", "A", 7⟩] ∧
      (1 : Nat) ≠ 0 ∧
      (alookup projFix2b.repo.commits 1).map Commit.parent = some (some 0)) :=
  ⟨⟨by decide, by decide, by decide⟩,
   c6_commit_chaining projFix projFix1 projFix2b "m1" "m2" "A" "a@b" 7 8 0 1
     (by decide) (by decide) (by decide)⟩

/-- C3: with file `f` holding `"v1"` at the first commit — and staged by
it: `f` is tracked or not matched by the ignore rules, which the claim's
premise that `"v1"` *was committed* as `C1` presupposes — then
overwritten with `"v2"` and committed again, restoring `f` from the
first commit succeeds and a subsequent `readFile` of `f` returns exactly
`"v1"`. -/
theorem c3_restore_roundtrip (st st1 st3 : Proj) (fs2 : FSState) (f : FPath)
    (m1 m2 a e s : String) (t1 t2 : Int) (c1 c2 : Nat)
    (h0 : alookup st.fs.files (st.root ++ f) = some "v1")
    (hstage : ¬ (f ∈ st.repo.ignored ∧ alookup st.repo.index f = none))
    (h1 : git_commit st m1 a e t1 = .ok (c1, st1))
    (h2 : write_file_content st1.fs (st1.root ++ f) "v2" = .ok fs2)
    (h3 : git_commit ⟨fs2, st1.repo, st1.root⟩ m2 a e t2 = .ok (c2, st3))
    (h4 : oidFromStr s = some c1) :
    (restore_file_version st3 f s).map
        (fun st4 => read_file_content st4.fs (st4.root ++ f)) = .ok (.ok "v1") := by
  rcases git_commit_ok h1 with ⟨hc1, hfs1, hr1, hh1, hn1, _, hcs1⟩
  rcases git_commit_ok h3 with ⟨hc3, hfs3, hr3, hh3, hn3, _, hcs3⟩
  rcases write_file_content_ok h2 with ⟨hp0, hw1, hw2, hw3, hw4, hw5⟩
  simp only at hc3 hfs3 hr3 hcs3
  have hid : c2 = c1 + 1 := by rw [hc3, hn1]
  have hne : ¬ (c2 = c1) := by omega
  unfold restore_file_version
  rw [h4]
  simp only
  rw [hcs3, hcs1]
  simp only [alookup]
  simp [hne]
  have htree : alookup (addAllIndex st.fs st.root st.repo.index st.repo.ignored) f
      = some "v1" := by
    rw [alookup_addAllIndex, if_neg hstage, h0]
  rw [htree]
  simp only
  rw [hfs3, hr3]
  rw [fsWrite_ok_of fs2 (st1.root ++ f) "v1" hp0 hw2 hw3]
  simp only [Except.map]
  simp [read_file_content, alookup_ainsert_self]

/-- Witness for C3 at the concrete fixture: commit `"v1"`, overwrite with
`"v2"`, commit again, restore from the first commit, read back `"v1"`. -/
theorem c3_restore_roundtrip_witness :
    (alookup projFix.fs.files (projFix.root ++ ["f"]) = some "v1" ∧
      ¬ ((["f"] : FPath) ∈ projFix.repo.ignored ∧
        alookup projFix.repo.index ["f"] = none) ∧
      git_commit projFix "m1" "A" "a@b" 7 = .ok (0, projFix1) ∧
      write_file_content projFix1.fs (projFix1.root ++ ["f"]) "v2" = .ok fsFix2 ∧
      git_commit ⟨fsFix2, projFix1.repo, projFix1.root⟩ "m2" "A" "a@b" 8
        = .ok (1, projFix2) ∧
      oidFromStr "0" = some 0) ∧
    (restore_file_version projFix2 ["f"] "0").map
        (fun st4 => read_file_content st4.fs (st4.root ++ ["f"]))
      = .ok (.ok "v1") :=
  ⟨⟨by decide, by decide, by decide, by decide, by decide, by decide⟩,
   c3_restore_roundtrip projFix projFix1 projFix2 fsFix2 ["f"]
     "m1" "m2" "A" "a@b" "0" 7 8 0 1
     (by decide) (by decide) (by decide) (by decide) (by decide) (by decide)⟩

end NB
